import Mathlib

/-!
Shallow embedding of `src/monitor.ts` (Solana wallet monitor, V28 revision)
and proofs about its change-detection, retry, classification, market-data
and formatting logic.

Modelling conventions:
* JavaScript numbers are modelled as exact rationals (`ℚ`); integer lamport
  balances as `ℕ`.  All threshold comparisons in the source are between
  decimal literals, which are exact in `ℚ`.
* `Map` objects are modelled as association lists or as functions into
  `Option`; `Map.get(k) ?? 0` becomes `(cache k).getD 0`.
* Asynchronous network calls are modelled by passing the (already decoded)
  response value as an explicit argument; a thrown/failed call is `none` or
  a dedicated error constructor.
-/

namespace SolMonitor

/-- `Math.abs` on rationals, exactly as the JS builtin behaves on
non-NaN inputs. -/
def mabs (q : ℚ) : ℚ := if q < 0 then -q else q

/-! ### Price formatting (`formatPrice`, monitor.ts lines 172-181)

`Number.prototype.toFixed(d)` renders a non-negative number `x` as the
decimal string of the integer nearest to `x * 10^d` (ties upward), with a
decimal point inserted `d` digits from the right; a negative number is
rendered as `-` followed by the rendering of its negation.  We build the
decimal renderer from scratch (structurally, via fuel) so that every
character-level fact is provable and kernel-computable. -/

/-- Decimal digit character for `n < 10`. -/
def digitChar (n : ℕ) : Char := Char.ofNat (48 + n)

/-- Decimal digits of `n`, least significant first; the fuel argument only
makes the recursion structural and is always supplied large enough. -/
def natDigitsRevAux : ℕ → ℕ → List Char
  | _, 0 => []
  | n, fuel + 1 =>
      if n < 10 then [digitChar n]
      else digitChar (n % 10) :: natDigitsRevAux (n / 10) fuel

/-- Decimal digits of `n`, least significant first. -/
def natDigitsRev (n : ℕ) : List Char := natDigitsRevAux n (n + 1)

/-- Decimal rendering of a natural number (the output of JS number→string
conversion for integral values below 2^53). -/
def natRepr (n : ℕ) : String := String.mk (natDigitsRev n).reverse

/-- Left-pad a string with `'0'` up to length `d`. -/
def padZeros (s : String) (d : ℕ) : String :=
  String.mk (List.replicate (d - s.length) '0') ++ s

/-- `toFixed` for a non-negative rational. -/
def toFixedPos (x : ℚ) (d : ℕ) : String :=
  if d = 0 then natRepr (⌊x * 10 ^ d + 1 / 2⌋).toNat
  else natRepr ((⌊x * 10 ^ d + 1 / 2⌋).toNat / 10 ^ d) ++ "." ++
       padZeros (natRepr ((⌊x * 10 ^ d + 1 / 2⌋).toNat % 10 ^ d)) d

/-- `Number.prototype.toFixed` (for `|x| < 10^21`, which covers every
value the monitor formats). -/
def toFixed (x : ℚ) (d : ℕ) : String :=
  if x < 0 then "-" ++ toFixedPos (-x) d else toFixedPos x d

/-- monitor.ts lines 172-181.  The argument is the value produced by
`parseFloat(priceStr)`; the `!price || isNaN(price)` guard is taken for a
zero value (NaN has no rational counterpart and lands in the same `"$0"`
branch). -/
def formatPrice (price : ℚ) : String :=
  if price = 0 then "$0"
  else if price < 1 / 10 ^ 8 then "$" ++ toFixed price 10
  else if price < 1 / 10 ^ 5 then "$" ++ toFixed price 8
  else if price < 1 / 100 then "$" ++ toFixed price 6
  else if price < 1 then "$" ++ toFixed price 4
  else "$" ++ toFixed price 2

/-- Number of characters after the first `'.'` of a string (0 when there
is no decimal point). -/
def decimalsOf (s : String) : ℕ :=
  ((s.data.dropWhile (fun c => c ≠ '.')).drop 1).length

/-- Whether a string contains a scientific-notation exponent marker. -/
def hasExpChar (s : String) : Bool :=
  s.data.any (fun c => c = 'e' || c = 'E')

/-- Modelled from the spec: the decimal-precision bracket table claimed in
§4.4 of the spec (≥1: 2; [0.01,1): 4; [0.00001,0.01): 6;
[0.00000001,0.00001): 8; below that: 10). -/
def specBracketDecimals (p : ℚ) : ℕ :=
  if p ≥ 1 then 2
  else if p ≥ 1 / 100 then 4
  else if p ≥ 1 / 10 ^ 5 then 6
  else if p ≥ 1 / 10 ^ 8 then 8
  else 10

def digitChars : List Char := ['0','1','2','3','4','5','6','7','8','9']

/-! ### Transaction classification (`fetchLastTransactionDetails`, monitor.ts lines 316-431)

The pure classification core of `fetchLastTransactionDetails`: given the
decoded facts of one transaction as they concern the watched account
(native balance delta in SOL, per-mint token balance deltas, and whether
the log scan of lines 318-322 recognised a swap program), produce the
`TradeDetails` of lines 368-431.  The metadata/risk lookups of lines
378-381 are passed in as already-resolved values. -/

def WSOL_MINT : String := "So11111111111111111111111111111111111111112"

inductive TradeType | SWAP | TRANSFER | WRAP
deriving DecidableEq, Repr

structure TokenMarketData where
  symbol : String
  name : String
  priceUsd : String
  fdv : ℚ
  liquidity : ℚ
deriving DecidableEq, Repr

structure RugCheckData where
  score : ℚ
  riskLevel : String
  isNew : Bool
deriving DecidableEq, Repr

structure TradeDetails where
  signature : String
  tokenMint : String
  tokenData : Option TokenMarketData
  rugData : Option RugCheckData
  tokenChange : ℚ
  solChange : ℚ
  isBuy : Bool
  type : TradeType
deriving DecidableEq, Repr

structure TxFacts where
  nativeDiff : ℚ
  tokenDeltas : List (String × ℚ)
  isSwapProgram : Bool

structure ScanAcc where
  targetMint : String
  targetChange : ℚ
  wSolDiff : ℚ
deriving DecidableEq, Repr

def scanStep (acc : ScanAcc) (p : String × ℚ) : ScanAcc :=
  if mabs p.2 > 0 then
    if p.1 = WSOL_MINT then { acc with wSolDiff := acc.wSolDiff + p.2 }
    else if mabs p.2 > mabs acc.targetChange then
      { acc with targetMint := p.1, targetChange := p.2 }
    else acc
  else acc

def scanDeltas (l : List (String × ℚ)) : ScanAcc := l.foldl scanStep ⟨"", 0, 0⟩

def classify (sig : String) (f : TxFacts)
    (tokenData : Option TokenMarketData) (rugData : Option RugCheckData) : TradeDetails :=
  let acc := scanDeltas f.tokenDeltas
  let totalSolFlow := f.nativeDiff + acc.wSolDiff
  if acc.targetMint ≠ "" then
    if f.isSwapProgram || decide (mabs f.nativeDiff > 0.05) then
      ⟨sig, acc.targetMint, tokenData, rugData, acc.targetChange, totalSolFlow,
        decide (acc.targetChange > 0), .SWAP⟩
    else
      ⟨sig, acc.targetMint, none, none, acc.targetChange, f.nativeDiff, false, .TRANSFER⟩
  else if mabs f.nativeDiff > 0.001 ∧ mabs acc.wSolDiff > 0.001 ∧ mabs totalSolFlow < 0.01 then
    ⟨sig, "WSOL", none, none, acc.wSolDiff, f.nativeDiff, decide (acc.wSolDiff > 0), .WRAP⟩
  else
    ⟨sig, "SOL", none, none, totalSolFlow, totalSolFlow, decide (totalSolFlow > 0), .TRANSFER⟩

def hasSwapCandidate (f : TxFacts) : Prop :=
  ∃ p ∈ f.tokenDeltas, p.1 ≠ WSOL_MINT ∧ p.2 ≠ 0

/-! ### Token market data (`fetchTokenMarketData`, monitor.ts lines 188-244)

The two upstream responses are passed in decoded form: `jup` is the
`jupData.data?.[mint]` object (or `none` for any failure along that path),
`pairs` is the `dexData.pairs` array (or `[]`).  `liquidity.usd` is
modelled as always present because the sort comparator of line 227
dereferences it unconditionally. -/

structure JupExtra where
  symbol : Option String
deriving DecidableEq, Repr

structure JupInfo where
  price : Option String
  extraInfo : Option JupExtra
deriving DecidableEq, Repr

structure DexPair where
  baseSymbol : String
  baseName : String
  priceUsd : String
  fdv : Option ℚ
  liquidityUsd : ℚ
deriving DecidableEq, Repr

/-- Line 227: sort descending by `liquidity.usd` (stable) and take the
first element — i.e. the first pair of maximal liquidity. -/
def bestPairOf : List DexPair → Option DexPair
  | [] => none
  | p :: rest =>
      some (rest.foldl (fun best q => if q.liquidityUsd > best.liquidityUsd then q else best) p)

/-- Lines 199-241: merge the two source responses into a result, or `none`
when neither source set the `found` flag. -/
def mergeMarketData (jup : Option JupInfo) (pairs : List DexPair) : Option TokenMarketData :=
  let jupState :=
    match jup with
    | none => ("UNKNOWN", "Unknown Token", "0", false)
    | some info =>
        let p := info.price.getD "0"
        match info.extraInfo with
        | none => ("UNKNOWN", "Unknown Token", p, false)
        | some ex =>
            let s := ex.symbol.getD "UNKNOWN"
            (s, s, p, true)
  match bestPairOf pairs with
  | none => if jupState.2.2.2 then some ⟨jupState.1, jupState.2.1, jupState.2.2.1, 0, 0⟩ else none
  | some bp =>
      some ⟨if jupState.1 = "UNKNOWN" then bp.baseSymbol else jupState.1,
            if jupState.2.1 = "Unknown Token" then bp.baseName else jupState.2.1,
            if jupState.2.2.1 = "0" then bp.priceUsd else jupState.2.2.1,
            bp.fdv.getD 0, bp.liquidityUsd⟩

/-- Modelled from the spec: "a result is returned found if either source
yields at least a symbol or a price" (§4.4). -/
def specFoundCond (jup : Option JupInfo) (pairs : List DexPair) : Prop :=
  (∃ info, jup = some info ∧
      (info.price.isSome ∨ ∃ ex, info.extraInfo = some ex ∧ ex.symbol.isSome))
  ∨ pairs ≠ []

/-! ### TTL caches (lines 149-151, cache use in lines 188-191/242 and 249-266) -/

def CACHE_TTL : ℕ := 60 * 1000

/-- Association-list model of a JS `Map` holding `(data, timestamp)`
entries; `cacheSet` prepends, and `cacheGet` takes the newest entry. -/
def TtlCache (α : Type) : Type := List (String × α × ℕ)

def cacheGet {α : Type} : TtlCache α → String → Option (α × ℕ)
  | [], _ => none
  | (k', v) :: rest, k => if k = k' then some v else cacheGet rest k

def cacheSet {α : Type} (c : TtlCache α) (k : String) (d : α) (ts : ℕ) : TtlCache α :=
  (k, d, ts) :: c

structure FetchTokenResult where
  result : Option TokenMarketData
  cache : TtlCache TokenMarketData
  networkUsed : Bool

/-- The no-cache-hit path of `fetchTokenMarketData` (lines 193-243). -/
def fetchTokenFresh (cache : TtlCache TokenMarketData) (now : ℕ) (mint : String)
    (jup : Option JupInfo) (pairs : List DexPair) : FetchTokenResult :=
  match mergeMarketData jup pairs with
  | none => ⟨none, cache, true⟩
  | some d => ⟨some d, cacheSet cache mint d now, true⟩

/-- Lines 188-244; `now` is `Date.now()` at the moment of the call. -/
def fetchTokenMarketData (cache : TtlCache TokenMarketData) (now : ℕ) (mint : String)
    (jup : Option JupInfo) (pairs : List DexPair) : FetchTokenResult :=
  match cacheGet cache mint with
  | some (d, ts) =>
      if now - ts < CACHE_TTL then ⟨some d, cache, false⟩
      else fetchTokenFresh cache now mint jup pairs
  | none => fetchTokenFresh cache now mint jup pairs

/-- Outcome of the RugCheck HTTP call (lines 253-258); `report` carries
`data.score || 0`. -/
inductive RugResponse
  | notFound404
  | httpError
  | threw
  | report (score : ℚ)
deriving DecidableEq, Repr

structure FetchRugResult where
  result : RugCheckData
  cache : TtlCache RugCheckData
  networkUsed : Bool

/-- The no-cache-hit path of `fetchRugCheckData` (lines 253-266). -/
def fetchRugFresh (cache : TtlCache RugCheckData) (now : ℕ) (mint : String)
    (resp : RugResponse) : FetchRugResult :=
  match resp with
  | .notFound404 => ⟨⟨0, "unknown", true⟩, cache, true⟩
  | .httpError => ⟨⟨0, "error", false⟩, cache, true⟩
  | .threw => ⟨⟨0, "error", false⟩, cache, true⟩
  | .report score =>
      let level := if score > 2000 then "danger" else if score > 500 then "warn" else "good"
      ⟨⟨score, level, false⟩, cacheSet cache mint ⟨score, level, false⟩ now, true⟩

/-- Lines 249-267. -/
def fetchRugCheckData (cache : TtlCache RugCheckData) (now : ℕ) (mint : String)
    (resp : RugResponse) : FetchRugResult :=
  match cacheGet cache mint with
  | some (d, ts) =>
      if now - ts < CACHE_TTL then ⟨d, cache, false⟩
      else fetchRugFresh cache now mint resp
  | none => fetchRugFresh cache now mint resp

/-! ### Signature resolution retry loop (lines 288-302)

One `FetchOutcome` per `getSignaturesForAddress` call: `sigs nonempty
newestErr` is a returned signature list (`signatures.length > 0`,
truthiness of `signatures[0].err`), `rateLimited` a throw whose message
contains `429`, `failed` any other throw. -/

def MAX_ATTEMPTS : ℕ := 15

inductive FetchOutcome
  | sigs (nonempty : Bool) (newestErr : Bool)
  | rateLimited
  | failed
deriving DecidableEq, Repr

structure RetryResult where
  succeeded : Bool
  fetches : ℕ
  sleeps : List ℕ
deriving DecidableEq, Repr

/-- The `while (attempts < MAX_ATTEMPTS)` loop of lines 293-302, driven by
the trace of fetch outcomes.  `fetches` counts RPC calls made, `sleeps`
records the total milliseconds slept after each non-breaking iteration
(a rate-limited iteration sleeps 1000 in the catch plus the common 200). -/
def retryLoop (attempts : ℕ) (trace : List FetchOutcome) : RetryResult :=
  if attempts ≥ MAX_ATTEMPTS then ⟨false, 0, []⟩
  else
    match trace with
    | [] => ⟨false, 0, []⟩
    | .sigs true false :: _ => ⟨true, 1, []⟩
    | .sigs _ _ :: rest =>
        let r := retryLoop (attempts + 1) rest
        ⟨r.succeeded, r.fetches + 1, 200 :: r.sleeps⟩
    | .rateLimited :: rest =>
        let r := retryLoop (attempts + 1) rest
        ⟨r.succeeded, r.fetches + 1, 1200 :: r.sleeps⟩
    | .failed :: rest =>
        let r := retryLoop (attempts + 1) rest
        ⟨r.succeeded, r.fetches + 1, 200 :: r.sleeps⟩

/-- Modelled from the spec: the attempts the claim says are the only ones
consuming the retry budget — those returning zero signatures or whose
newest signature is marked an execution error. -/
def countsAgainstLagBudget : FetchOutcome → Bool
  | .sigs false _ => true
  | .sigs true e => e
  | _ => false

/-! ### Balance polling (`startPolling`, lines 440-501, and `chunkArray`,
lines 443-447)

The balance cache is a function model of the `balanceCache` map; a batch
is the list of `(wallet.address, info)` pairs produced by one
`getMultipleAccountsInfo` call, where `info = none` models a missing
account (`info ? info.lamports : 0`). -/

def MAX_CONCURRENT_TASKS : ℕ := 5

/-- One entry of the `updates` list of line 497: the wallet address, its
newly queried lamport balance, and the signed SOL delta. -/
structure ChangeRecord where
  address : String
  cur : ℕ
  diffSol : ℚ
deriving DecidableEq, Repr

/-- Lines 443-447.  (For `size = 0` the source loop would not terminate;
the model is only used, and only meaningful, for positive sizes.) -/
def chunkArray {α : Type} : List α → ℕ → List (List α)
  | [], _ => []
  | _ :: _, 0 => []
  | a :: as, size + 1 =>
      (a :: as).take (size + 1) :: chunkArray ((a :: as).drop (size + 1)) (size + 1)
termination_by l _ => l.length
decreasing_by
  simp only [List.length_drop, List.length_cons]
  omega

/-- In-flight task counts per dispatch wave: line 509 splits the updates
into batches of `MAX_CONCURRENT_TASKS`, and lines 511-587 run each batch
under `Promise.all`, awaiting it before dispatching the next, so the
simultaneously running resolve+classify tasks are exactly one batch. -/
def inflightCounts (updates : List ChangeRecord) : List ℕ :=
  (chunkArray updates MAX_CONCURRENT_TASKS).map List.length

def lamportsToSol (l : ℚ) : ℚ := l / 1000000000

def BalCache : Type := String → Option ℕ

def setBal (c : BalCache) (a : String) (v : ℕ) : BalCache :=
  fun k => if k = a then some v else c k

/-- Lines 484-502: diff one successfully queried batch against the cache,
updating the cache and collecting the `updates` list. -/
def processBatch (cache : BalCache) : List (String × Option ℕ) → BalCache × List ChangeRecord
  | [] => (cache, [])
  | (addr, info) :: rest =>
      if info.getD 0 ≠ (cache addr).getD 0 then
        if mabs (lamportsToSol ((info.getD 0 : ℚ) - ((cache addr).getD 0 : ℚ))) > 0.000000001 then
          ((processBatch (setBal cache addr (info.getD 0)) rest).1,
            ⟨addr, info.getD 0,
              lamportsToSol ((info.getD 0 : ℚ) - ((cache addr).getD 0 : ℚ))⟩ ::
              (processBatch (setBal cache addr (info.getD 0)) rest).2)
        else processBatch (setBal cache addr (info.getD 0)) rest
      else processBatch cache rest

/-- Lines 460-468: establish the initial balance baseline for one batch. -/
def initChunk (cache : BalCache) : List (String × Option ℕ) → BalCache
  | [] => cache
  | (addr, info) :: rest => initChunk (setBal cache addr (info.getD 0)) rest

/-- One pass of the polling loop over all chunks (lines 476-598): each
chunk carries the outcome of its `getMultipleAccountsInfo` call, `none`
when the call threw (the catch block skips the whole batch). -/
def runCycle (cache : BalCache) :
    List (List String × Option (List (Option ℕ))) → BalCache × List (List ChangeRecord)
  | [] => (cache, [])
  | (_, none) :: rest =>
      let r := runCycle cache rest
      (r.1, [] :: r.2)
  | (chunk, some infos) :: rest =>
      let b := processBatch cache (chunk.zip infos)
      let r := runCycle b.1 rest
      (r.1, b.2 :: r.2)

/-! ### Theorems -/

theorem mabs_eq_abs (q : ℚ) : mabs q = |q| := by
  unfold mabs
  split
  · exact (abs_of_neg (by assumption)).symm
  · exact (abs_of_nonneg (by linarith [not_lt.mp (by assumption)])).symm

theorem digitChar_mem {k : ℕ} (h : k < 10) : digitChar k ∈ digitChars := by
  interval_cases k <;> decide

theorem digit_ne {c : Char} (h : c ∈ digitChars) :
    c ≠ '.' ∧ c ≠ 'e' ∧ c ≠ 'E' ∧ c ≠ '$' ∧ c ≠ '-' := by
  simp only [digitChars, List.mem_cons, List.not_mem_nil, or_false] at h
  rcases h with rfl|rfl|rfl|rfl|rfl|rfl|rfl|rfl|rfl|rfl <;>
    exact ⟨by decide, by decide, by decide, by decide, by decide⟩

theorem mem_natDigitsRevAux : ∀ {fuel n : ℕ} {c : Char},
    c ∈ natDigitsRevAux n fuel → c ∈ digitChars := by
  intro fuel
  induction fuel with
  | zero => intro n c h; simp [natDigitsRevAux] at h
  | succ f ih =>
      intro n c h
      rw [natDigitsRevAux] at h
      split at h
      · simp at h; subst h; exact digitChar_mem (by assumption)
      · rcases List.mem_cons.mp h with h1 | h2
        · subst h1; exact digitChar_mem (Nat.mod_lt _ (by omega))
        · exact ih h2

theorem mem_natDigitsRev {n : ℕ} {c : Char} (h : c ∈ natDigitsRev n) : c ∈ digitChars :=
  mem_natDigitsRevAux h

theorem length_natDigitsRevAux_le : ∀ {fuel d n : ℕ},
    n < 10 ^ d → 0 < d → (natDigitsRevAux n fuel).length ≤ d := by
  intro fuel
  induction fuel with
  | zero => intro d n _ _; simp [natDigitsRevAux]
  | succ f ih =>
      intro d n hn hd
      rw [natDigitsRevAux]
      split
      · simpa using hd
      · rename_i h10
        push_neg at h10
        have hd2 : 2 ≤ d := by
          by_contra hc
          have hd1 : d = 1 := by omega
          subst hd1
          simp at hn
          omega
        have hdiv : n / 10 < 10 ^ (d - 1) := by
          rw [Nat.div_lt_iff_lt_mul (by norm_num)]
          calc n < 10 ^ d := hn
          _ = 10 ^ (d - 1) * 10 := by
                rw [← pow_succ]
                congr 1
                omega
        have := ih hdiv (by omega)
        simp only [List.length_cons]
        omega

theorem length_natDigitsRev_le {d n : ℕ} (hn : n < 10 ^ d) (hd : 0 < d) :
    (natDigitsRev n).length ≤ d :=
  length_natDigitsRevAux_le hn hd

theorem data_natRepr (n : ℕ) : (natRepr n).data = (natDigitsRev n).reverse := rfl

theorem mem_data_natRepr {n : ℕ} {c : Char} (h : c ∈ (natRepr n).data) : c ∈ digitChars := by
  rw [data_natRepr, List.mem_reverse] at h
  exact mem_natDigitsRev h

theorem length_padZeros {s : String} {d : ℕ} (h : s.length ≤ d) :
    (padZeros s d).data.length = d := by
  have hs : s.length = s.data.length := rfl
  unfold padZeros
  rw [String.data_append]
  show (List.replicate (d - s.length) '0' ++ s.data).length = d
  rw [List.length_append, List.length_replicate]
  omega

theorem mem_padZeros {s : String} {d : ℕ} {c : Char} (h : c ∈ (padZeros s d).data) :
    c = '0' ∨ c ∈ s.data := by
  unfold padZeros at h
  rw [String.data_append] at h
  rcases List.mem_append.mp h with h1 | h2
  · left; exact List.eq_of_mem_replicate (by simpa using h1)
  · right; exact h2

theorem dropWhile_append_dot {l₁ l₂ : List Char} (h : ∀ c ∈ l₁, c ≠ '.') :
    (l₁ ++ '.' :: l₂).dropWhile (fun c => c ≠ '.') = '.' :: l₂ := by
  induction l₁ with
  | nil => simp [List.dropWhile]
  | cons a l ih =>
      have ha : a ≠ '.' := h a (by simp)
      have hb : (decide (a ≠ '.')) = true := by simpa using ha
      simp only [List.cons_append, List.dropWhile, hb]
      exact ih (fun c hc => h c (by simp [hc]))

theorem decimalsOf_prefix_toFixedPos (pre : String) (x : ℚ) (d : ℕ)
    (hd : 0 < d) (hpre : ∀ c ∈ pre.data, c ≠ '.') :
    decimalsOf (pre ++ toFixedPos x d) = d := by
  unfold decimalsOf toFixedPos
  rw [if_neg (by omega)]
  have hlen : (natRepr ((⌊x * 10 ^ d + 1 / 2⌋).toNat % 10 ^ d)).length ≤ d := by
    show (natDigitsRev _).reverse.length ≤ d
    rw [List.length_reverse]
    exact length_natDigitsRev_le (Nat.mod_lt _ (by positivity)) hd
  rw [String.data_append, String.data_append, String.data_append]
  have hdot : ("." : String).data = ['.'] := rfl
  rw [hdot]
  simp only [List.append_assoc, List.singleton_append]
  rw [← List.append_assoc]
  rw [dropWhile_append_dot]
  · exact length_padZeros hlen
  · intro c hc
    rcases List.mem_append.mp hc with h1 | h2
    · exact hpre c h1
    · exact (digit_ne (mem_data_natRepr h2)).1

theorem decimalsOf_dollar_toFixed (x : ℚ) (d : ℕ) (hd : 0 < d) :
    decimalsOf ("$" ++ toFixed x d) = d := by
  unfold toFixed
  split
  · rw [← String.append_assoc]
    exact decimalsOf_prefix_toFixedPos ("$" ++ "-") (-x) d hd (by decide)
  · exact decimalsOf_prefix_toFixedPos "$" x d hd (by decide)

theorem mem_toFixedPos {x : ℚ} {d : ℕ} {c : Char} (h : c ∈ (toFixedPos x d).data) :
    c ∈ digitChars ∨ c = '.' := by
  unfold toFixedPos at h
  split at h
  · exact Or.inl (mem_data_natRepr h)
  · rw [String.data_append, String.data_append] at h
    rcases List.mem_append.mp h with h1 | h2
    · rcases List.mem_append.mp h1 with h3 | h4
      · exact Or.inl (mem_data_natRepr h3)
      · right; simpa using h4
    · rcases mem_padZeros h2 with h5 | h6
      · left; rw [h5]; decide
      · exact Or.inl (mem_data_natRepr h6)

theorem hasExpChar_toFixedPos (x : ℚ) (d : ℕ) :
    (toFixedPos x d).data.any (fun c => c = 'e' || c = 'E') = false := by
  rw [List.any_eq_false]
  intro c hc
  simp only [Bool.or_eq_true, decide_eq_true_eq, not_or]
  rcases mem_toFixedPos hc with hd1 | hd2
  · have := digit_ne hd1; exact ⟨this.2.1, this.2.2.1⟩
  · subst hd2; exact ⟨by decide, by decide⟩

theorem hasExpChar_dollar_toFixed (x : ℚ) (d : ℕ) :
    hasExpChar ("$" ++ toFixed x d) = false := by
  unfold hasExpChar
  rw [String.data_append, List.any_append]
  simp only [Bool.or_eq_false_iff]
  refine ⟨by decide, ?_⟩
  unfold toFixed
  split
  · rw [String.data_append, List.any_append]
    simp only [Bool.or_eq_false_iff]
    exact ⟨by decide, hasExpChar_toFixedPos (-x) d⟩
  · exact hasExpChar_toFixedPos x d

theorem mabs_pos_iff {q : ℚ} : mabs q > 0 ↔ q ≠ 0 := by
  unfold mabs
  split
  · constructor
    · intro _ h0; subst h0; linarith
    · intro _; linarith [show q < 0 by assumption]
  · rename_i h
    push_neg at h
    constructor
    · intro hgt h0; subst h0; linarith
    · intro hne; rcases lt_or_eq_of_le h with h1 | h1
      · linarith
      · exact absurd h1.symm hne

theorem scan_foldl_targetMint_ne {l : List (String × ℚ)} :
    ∀ {acc : ScanAcc}, (∀ p ∈ l, p.1 ≠ "") → (acc.targetMint = "" → acc.targetChange = 0) →
    ((l.foldl scanStep acc).targetMint ≠ "" ↔
      acc.targetMint ≠ "" ∨ ∃ p ∈ l, p.1 ≠ WSOL_MINT ∧ p.2 ≠ 0) := by
  induction l with
  | nil => intro acc _ _; simp
  | cons a l ih =>
      intro acc hne hinv
      have hane : a.1 ≠ "" := hne a (by simp)
      have hrest : ∀ p ∈ l, p.1 ≠ "" := fun p hp => hne p (by simp [hp])
      rw [List.foldl_cons]
      by_cases hz : mabs a.2 > 0
      · by_cases hw : a.1 = WSOL_MINT
        · have hstep : scanStep acc a = { acc with wSolDiff := acc.wSolDiff + a.2 } := by
            unfold scanStep; rw [if_pos hz, if_pos hw]
          rw [hstep, ih hrest (by simpa using hinv)]
          constructor
          · rintro (h | ⟨p, hp, hp1, hp2⟩)
            · exact Or.inl (by simpa using h)
            · exact Or.inr ⟨p, by simp [hp], hp1, hp2⟩
          · rintro (h | ⟨p, hp, hp1, hp2⟩)
            · exact Or.inl (by simpa using h)
            · rcases List.mem_cons.mp hp with rfl | hpl
              · exact absurd hw hp1
              · exact Or.inr ⟨p, hpl, hp1, hp2⟩
        · have ha2 : a.2 ≠ 0 := mabs_pos_iff.mp hz
          by_cases hbig : mabs a.2 > mabs acc.targetChange
          · have hstep : scanStep acc a =
                { acc with targetMint := a.1, targetChange := a.2 } := by
              unfold scanStep; rw [if_pos hz, if_neg hw, if_pos hbig]
            rw [hstep, ih hrest (by intro hcontra; exact absurd hcontra hane)]
            constructor
            · intro _; exact Or.inr ⟨a, by simp, hw, ha2⟩
            · intro _; exact Or.inl (by simpa using hane)
          · have hstep : scanStep acc a = acc := by
              unfold scanStep; rw [if_pos hz, if_neg hw, if_neg hbig]
            have htc : acc.targetChange ≠ 0 := by
              intro h0
              rw [h0] at hbig
              have : mabs 0 = 0 := by unfold mabs; norm_num
              rw [this] at hbig
              exact hbig hz
            have hmint : acc.targetMint ≠ "" := fun h => htc (hinv h)
            rw [hstep, ih hrest hinv]
            constructor
            · intro _; exact Or.inl hmint
            · intro _; exact Or.inl hmint
      · have ha2 : a.2 = 0 := by
          by_contra hc
          exact hz (mabs_pos_iff.mpr hc)
        have hstep : scanStep acc a = acc := by
          unfold scanStep; rw [if_neg hz]
        rw [hstep, ih hrest hinv]
        constructor
        · rintro (h | ⟨p, hp, hp1, hp2⟩)
          · exact Or.inl h
          · exact Or.inr ⟨p, by simp [hp], hp1, hp2⟩
        · rintro (h | ⟨p, hp, hp1, hp2⟩)
          · exact Or.inl h
          · rcases List.mem_cons.mp hp with rfl | hpl
            · exact absurd ha2 hp2
            · exact Or.inr ⟨p, hpl, hp1, hp2⟩

theorem scanDeltas_targetMint_ne {f : TxFacts} (hne : ∀ p ∈ f.tokenDeltas, p.1 ≠ "") :
    (scanDeltas f.tokenDeltas).targetMint ≠ "" ↔ hasSwapCandidate f := by
  unfold scanDeltas hasSwapCandidate
  rw [scan_foldl_targetMint_ne hne (by intro _; rfl)]
  simp

theorem scan_foldl_wSolDiff {l : List (String × ℚ)} :
    ∀ {acc : ScanAcc}, (l.foldl scanStep acc).wSolDiff =
      acc.wSolDiff + ((l.filter (fun p => p.1 = WSOL_MINT)).map Prod.snd).sum := by
  induction l with
  | nil => intro acc; simp
  | cons a l ih =>
      intro acc
      rw [List.foldl_cons]
      by_cases hz : mabs a.2 > 0
      · by_cases hw : a.1 = WSOL_MINT
        · have hstep : scanStep acc a = { acc with wSolDiff := acc.wSolDiff + a.2 } := by
            unfold scanStep; rw [if_pos hz, if_pos hw]
          rw [hstep, ih]
          simp [List.filter_cons, hw]
          ring
        · have hstep : (scanStep acc a).wSolDiff = acc.wSolDiff := by
            unfold scanStep
            rw [if_pos hz, if_neg hw]
            split <;> rfl
          rw [ih, hstep]
          simp [List.filter_cons, hw]
      · have ha2 : a.2 = 0 := by
          by_contra hc
          exact hz (mabs_pos_iff.mpr hc)
        have hstep : scanStep acc a = acc := by
          unfold scanStep; rw [if_neg hz]
        rw [hstep, ih]
        by_cases hw : a.1 = WSOL_MINT
        · simp [List.filter_cons, hw, ha2]
        · simp [List.filter_cons, hw]

theorem scanDeltas_wSolDiff (l : List (String × ℚ)) :
    (scanDeltas l).wSolDiff = ((l.filter (fun p => p.1 = WSOL_MINT)).map Prod.snd).sum := by
  unfold scanDeltas
  rw [scan_foldl_wSolDiff]
  simp

/-- C1: when a swap candidate exists (some non-wrapped-native token has a
nonzero quantity delta; mint identifiers are assumed nonempty), the
classifier returns SWAP iff the log trace carries a recognized
swap-program marker or the absolute native delta exceeds 0.05; otherwise
it returns TRANSFER for the same target token and delta; and in the SWAP
case `isBuy` holds exactly when the target token's delta is positive. -/
theorem classify_swap_iff (sig : String) (f : TxFacts)
    (td : Option TokenMarketData) (rd : Option RugCheckData)
    (hne : ∀ p ∈ f.tokenDeltas, p.1 ≠ "") (hcand : hasSwapCandidate f) :
    ((classify sig f td rd).type = TradeType.SWAP ↔
        (f.isSwapProgram = true ∨ mabs f.nativeDiff > 0.05))
    ∧ ((classify sig f td rd).type ≠ TradeType.SWAP →
        (classify sig f td rd).type = TradeType.TRANSFER ∧
        (classify sig f td rd).tokenMint = (scanDeltas f.tokenDeltas).targetMint ∧
        (classify sig f td rd).tokenChange = (scanDeltas f.tokenDeltas).targetChange)
    ∧ ((classify sig f td rd).type = TradeType.SWAP →
        ((classify sig f td rd).isBuy = true ↔ 0 < (scanDeltas f.tokenDeltas).targetChange)) := by
  have hmint : (scanDeltas f.tokenDeltas).targetMint ≠ "" :=
    (scanDeltas_targetMint_ne hne).mpr hcand
  simp only [classify]
  rw [if_pos hmint]
  by_cases hcond : f.isSwapProgram = true ∨ mabs f.nativeDiff > 0.05
  · have hb : (f.isSwapProgram || decide (mabs f.nativeDiff > 0.05)) = true := by
      rcases hcond with h | h
      · simp [h]
      · simp [h]
    rw [if_pos hb]
    refine ⟨by simpa using hcond, ?_, ?_⟩
    · intro h; exact absurd rfl h
    · intro _; simp
  · have hb : (f.isSwapProgram || decide (mabs f.nativeDiff > 0.05)) = false := by
      push_neg at hcond
      have h1 : f.isSwapProgram = false := by
        cases hfs : f.isSwapProgram
        · rfl
        · exact absurd hfs hcond.1
      simp [h1, hcond.2]
    rw [if_neg (by simp [hb])]
    refine ⟨?_, ?_, ?_⟩
    · constructor
      · intro h; simp at h
      · intro h; exact absurd h hcond
    · intro _; exact ⟨rfl, rfl, rfl⟩
    · intro h; simp at h

/-- C4: with no swap candidate, the classifier returns WRAP iff the
absolute native delta and absolute wrapped-native delta each exceed 0.001
while the absolute value of their sum is below 0.01; then `isBuy`
(isWrapping) holds exactly when the wrapped-native delta is positive; in
every remaining case it returns TRANSFER whose reported delta is the sum
of the native and wrapped-native deltas (and the wrapped-native delta the
scan computes is the sum of the account's WSOL entries). -/
theorem classify_wrap_iff (sig : String) (f : TxFacts)
    (td : Option TokenMarketData) (rd : Option RugCheckData)
    (hne : ∀ p ∈ f.tokenDeltas, p.1 ≠ "") (hnocand : ¬ hasSwapCandidate f) :
    ((classify sig f td rd).type = TradeType.WRAP ↔
        (mabs f.nativeDiff > 0.001 ∧ mabs (scanDeltas f.tokenDeltas).wSolDiff > 0.001 ∧
         mabs (f.nativeDiff + (scanDeltas f.tokenDeltas).wSolDiff) < 0.01))
    ∧ ((classify sig f td rd).type = TradeType.WRAP →
        ((classify sig f td rd).isBuy = true ↔ 0 < (scanDeltas f.tokenDeltas).wSolDiff))
    ∧ ((classify sig f td rd).type ≠ TradeType.WRAP →
        (classify sig f td rd).type = TradeType.TRANSFER ∧
        (classify sig f td rd).tokenChange = f.nativeDiff + (scanDeltas f.tokenDeltas).wSolDiff ∧
        (classify sig f td rd).solChange = f.nativeDiff + (scanDeltas f.tokenDeltas).wSolDiff)
    ∧ (scanDeltas f.tokenDeltas).wSolDiff =
        ((f.tokenDeltas.filter (fun p => p.1 = WSOL_MINT)).map Prod.snd).sum := by
  have hmint : ¬ (scanDeltas f.tokenDeltas).targetMint ≠ "" :=
    (not_congr (scanDeltas_targetMint_ne hne)).mpr hnocand
  simp only [classify]
  rw [if_neg hmint]
  by_cases hwrap : mabs f.nativeDiff > 0.001 ∧ mabs (scanDeltas f.tokenDeltas).wSolDiff > 0.001 ∧
      mabs (f.nativeDiff + (scanDeltas f.tokenDeltas).wSolDiff) < 0.01
  · rw [if_pos hwrap]
    refine ⟨by simpa using hwrap, ?_, ?_, scanDeltas_wSolDiff _⟩
    · intro _; simp
    · intro h; exact absurd rfl h
  · rw [if_neg hwrap]
    refine ⟨?_, ?_, ?_, scanDeltas_wSolDiff _⟩
    · constructor
      · intro h; simp at h
      · intro h; exact absurd h hwrap
    · intro h; simp at h
    · intro _; exact ⟨rfl, rfl, rfl⟩

theorem scan_eval_tok : scanDeltas [("TOK", (1000000:ℚ))] = ⟨"TOK", 1000000, 0⟩ := by
  simp only [scanDeltas, List.foldl, scanStep]
  rw [if_pos (by norm_num [mabs]), if_neg (by decide), if_pos (by norm_num [mabs])]

theorem classify_swap_iff_witness :
    (classify "sig" ⟨-(1/2), [("TOK", 1000000)], true⟩ none none).type = TradeType.SWAP
    ∧ (classify "sig" ⟨-(1/2), [("TOK", 1000000)], true⟩ none none).isBuy = true := by
  have h := classify_swap_iff "sig" ⟨-(1/2), [("TOK", 1000000)], true⟩ none none
    (by intro p hp; simp at hp; subst hp; decide)
    (⟨("TOK", 1000000), by simp, by decide, by norm_num⟩)
  have htype := h.1.mpr (Or.inl rfl)
  refine ⟨htype, (h.2.2 htype).mpr ?_⟩
  rw [scan_eval_tok]
  norm_num

theorem scan_eval_wsol : scanDeltas [(WSOL_MINT, (-(2/5) : ℚ))] = ⟨"", 0, -(2/5)⟩ := by
  simp only [scanDeltas, List.foldl, scanStep]
  rw [if_pos (by norm_num [mabs])]
  simp

theorem classify_wrap_iff_witness :
    (classify "sig" ⟨2/5, [(WSOL_MINT, -(2/5))], false⟩ none none).type = TradeType.WRAP
    ∧ (classify "sig" ⟨2/5, [(WSOL_MINT, -(2/5))], false⟩ none none).isBuy = false := by
  have h := classify_wrap_iff "sig" ⟨2/5, [(WSOL_MINT, -(2/5))], false⟩ none none
    (by intro p hp; simp at hp; subst hp; decide)
    (by unfold hasSwapCandidate; rintro ⟨p, hp, hp1, hp2⟩; simp at hp; subst hp; exact hp1 rfl)
  have htype := h.1.mpr ?_
  · refine ⟨htype, ?_⟩
    have hbuy := h.2.1 htype
    rw [scan_eval_wsol] at hbuy
    have : ¬ ((classify "sig" ⟨2/5, [(WSOL_MINT, -(2/5))], false⟩ none none).isBuy = true) := by
      rw [hbuy]; norm_num
    exact Bool.not_eq_true _ |>.mp this
  · rw [scan_eval_wsol]
    refine ⟨by norm_num [mabs], by norm_num [mabs], by norm_num [mabs]⟩

/-! #### C6: price formatting bracket discipline -/

theorem formatPrice_decimals_aux (p : ℚ) (hp : p ≠ 0) :
    decimalsOf (formatPrice p) = specBracketDecimals p ∧ hasExpChar (formatPrice p) = false := by
  have e8 : (1:ℚ)/10^8 ≤ 1 := by norm_num
  have e5 : (1:ℚ)/10^5 ≤ 1 := by norm_num
  have e2 : (1:ℚ)/100 ≤ 1 := by norm_num
  have e85 : (1:ℚ)/10^8 ≤ 1/10^5 := by norm_num
  have e82 : (1:ℚ)/10^8 ≤ 1/100 := by norm_num
  have e52 : (1:ℚ)/10^5 ≤ 1/100 := by norm_num
  unfold formatPrice specBracketDecimals
  rw [if_neg hp]
  by_cases h1 : p ≥ 1
  · rw [if_neg (by linarith), if_neg (by linarith), if_neg (by linarith),
        if_neg (by linarith), if_pos h1]
    exact ⟨decimalsOf_dollar_toFixed p 2 (by norm_num), hasExpChar_dollar_toFixed p 2⟩
  · rw [if_neg h1]
    by_cases h2 : p ≥ 1/100
    · rw [if_neg (by linarith), if_neg (by linarith), if_neg (by linarith),
          if_pos (by linarith), if_pos h2]
      exact ⟨decimalsOf_dollar_toFixed p 4 (by norm_num), hasExpChar_dollar_toFixed p 4⟩
    · rw [if_neg h2]
      by_cases h3 : p ≥ 1/10^5
      · rw [if_neg (by linarith), if_neg (by linarith), if_pos (by push_neg at h2; linarith),
            if_pos h3]
        exact ⟨decimalsOf_dollar_toFixed p 6 (by norm_num), hasExpChar_dollar_toFixed p 6⟩
      · rw [if_neg h3]
        by_cases h4 : p ≥ 1/10^8
        · rw [if_neg (by linarith), if_pos (by push_neg at h3; linarith), if_pos h4]
          exact ⟨decimalsOf_dollar_toFixed p 8 (by norm_num), hasExpChar_dollar_toFixed p 8⟩
        · rw [if_neg h4, if_pos (by push_neg at h4; linarith)]
          exact ⟨decimalsOf_dollar_toFixed p 10 (by norm_num), hasExpChar_dollar_toFixed p 10⟩

theorem fp_tiny : formatPrice ((31:ℚ)/10^10) = "$0.0000000031" := by
  have h : (⌊(31:ℚ)/10^10 * 10 ^ 10 + 1/2⌋).toNat = 31 := by
    have h0 : (⌊(31:ℚ)/10^10 * 10 ^ 10 + 1/2⌋) = 31 := by norm_num
    rw [h0]; decide
  simp only [formatPrice, toFixed, toFixedPos, h]
  norm_num
  decide

theorem fp_mid : formatPrice ((2469:ℚ)/2) = "$1234.50" := by
  have h : (⌊(2469:ℚ)/2 * 10 ^ 2 + 1/2⌋).toNat = 123450 := by
    have h0 : (⌊(2469:ℚ)/2 * 10 ^ 2 + 1/2⌋) = 123450 := by norm_num
    rw [h0]; decide
  simp only [formatPrice, toFixed, toFixedPos, h]
  norm_num
  decide

theorem fp_small : formatPrice ((1:ℚ)/2000) = "$0.000500" := by
  have h : (⌊(1:ℚ)/2000 * 10 ^ 6 + 1/2⌋).toNat = 500 := by
    have h0 : (⌊(1:ℚ)/2000 * 10 ^ 6 + 1/2⌋) = 500 := by norm_num
    rw [h0]; decide
  simp only [formatPrice, toFixed, toFixedPos, h]
  norm_num
  decide

/-- C6 (counterexample): the claim asserts the decimal precision is
determined solely by the magnitude bracket for every price input, with
10 decimals below 0.00000001; but a price of 0 takes the `!price` guard
of line 174 and renders as `$0` with no decimals at all. -/
theorem formatPrice_zero_counterexample :
    formatPrice 0 = "$0" ∧ decimalsOf (formatPrice 0) = 0 ∧ specBracketDecimals 0 = 10
    ∧ decimalsOf (formatPrice 0) ≠ specBracketDecimals 0 := by
  have h0 : formatPrice 0 = "$0" := by simp [formatPrice]
  have h1 : decimalsOf (formatPrice 0) = 0 := by rw [h0]; decide
  have h2 : specBracketDecimals 0 = 10 := by norm_num [specBracketDecimals]
  exact ⟨h0, h1, h2, by rw [h1, h2]; omega⟩

/-- C6 (amended): for every nonzero price, the formatted string carries
exactly the bracket-determined number of decimals (2 / 4 / 6 / 8 / 10)
and never contains a scientific-notation exponent; a zero (or
unparseable) price renders as `$0`. -/
theorem formatPrice_bracket_noexp (p : ℚ) (hp : p ≠ 0) :
    decimalsOf (formatPrice p) = specBracketDecimals p
    ∧ hasExpChar (formatPrice p) = false :=
  formatPrice_decimals_aux p hp

theorem formatPrice_bracket_noexp_witness :
    ((31 : ℚ)/10^10 ≠ 0
      ∧ decimalsOf (formatPrice ((31 : ℚ)/10^10)) = specBracketDecimals ((31 : ℚ)/10^10)
      ∧ hasExpChar (formatPrice ((31 : ℚ)/10^10)) = false)
    ∧ formatPrice ((31 : ℚ)/10^10) = "$0.0000000031"
    ∧ formatPrice ((2469 : ℚ)/2) = "$1234.50"
    ∧ formatPrice ((1 : ℚ)/2000) = "$0.000500" := by
  have h := formatPrice_bracket_noexp ((31 : ℚ)/10^10) (by norm_num)
  exact ⟨⟨by norm_num, h.1, h.2⟩, fp_tiny, fp_mid, fp_small⟩

/-! #### C5: metadata resolver found/not-found -/

theorem bestPairOf_eq_none_iff (pairs : List DexPair) : bestPairOf pairs = none ↔ pairs = [] := by
  cases pairs <;> simp [bestPairOf]

/-- C5 (counterexample): a primary-source response carrying a price but no
extra-info block does not set `found` (lines 211-218 only set it inside
`if (info.extraInfo)`), so with no secondary pairs the resolver returns
not-found even though the primary yielded a price — contradicting the
claim that a price alone from either source suffices. -/
theorem mergeMarketData_price_only_counterexample :
    specFoundCond (some ⟨some "0.5", none⟩) []
    ∧ mergeMarketData (some ⟨some "0.5", none⟩) [] = none := by
  constructor
  · exact Or.inl ⟨⟨some "0.5", none⟩, rfl, Or.inl rfl⟩
  · rfl

/-- C5 (amended): the resolver returns found iff the primary source yields
an extra-info block or the secondary source yields at least one pair;
a primary-source price alone is not sufficient. -/
theorem mergeMarketData_found_iff (jup : Option JupInfo) (pairs : List DexPair) :
    (mergeMarketData jup pairs).isSome = true ↔
      ((∃ info ex, jup = some info ∧ info.extraInfo = some ex) ∨ pairs ≠ []) := by
  unfold mergeMarketData
  cases pairs with
  | nil =>
      simp only [bestPairOf]
      cases jup with
      | none => simp
      | some info =>
          cases hex : info.extraInfo with
          | none => simp [hex]
          | some ex => simp [hex]
  | cons p rest =>
      simp only [bestPairOf]
      cases jup with
      | none => simp
      | some info => cases hex : info.extraInfo <;> simp [hex]

theorem mergeMarketData_found_iff_witness :
    (mergeMarketData none [⟨"S", "N", "1", none, 5⟩]).isSome = true :=
  (mergeMarketData_found_iff none [⟨"S", "N", "1", none, 5⟩]).mpr (Or.inr (by simp))

/-! #### C7: TTL cache discipline -/

theorem cacheGet_cacheSet_same {α : Type} (c : TtlCache α) (k : String) (d : α) (ts : ℕ) :
    cacheGet (cacheSet c k d ts) k = some (d, ts) := by
  simp [cacheGet, cacheSet]

theorem fetchTokenFresh_networkUsed (cache : TtlCache TokenMarketData) (now : ℕ) (mint : String)
    (jup : Option JupInfo) (pairs : List DexPair) :
    (fetchTokenFresh cache now mint jup pairs).networkUsed = true := by
  unfold fetchTokenFresh
  cases mergeMarketData jup pairs <;> rfl

theorem fetchToken_eq_fresh_of_network (cache : TtlCache TokenMarketData) (now : ℕ)
    (mint : String) (jup : Option JupInfo) (pairs : List DexPair)
    (h : (fetchTokenMarketData cache now mint jup pairs).networkUsed = true) :
    fetchTokenMarketData cache now mint jup pairs = fetchTokenFresh cache now mint jup pairs := by
  unfold fetchTokenMarketData at h ⊢
  cases hc : cacheGet cache mint with
  | none => rfl
  | some e =>
      obtain ⟨d0, ts⟩ := e
      rw [hc] at h
      dsimp only at h ⊢
      by_cases hf : now - ts < CACHE_TTL
      · rw [if_pos hf] at h
        simp at h
      · rw [if_neg hf]

theorem fetchToken_hit (cache : TtlCache TokenMarketData) (now : ℕ) (mint : String)
    (jup : Option JupInfo) (pairs : List DexPair) (d : TokenMarketData) (ts : ℕ)
    (hc : cacheGet cache mint = some (d, ts)) (hf : now - ts < CACHE_TTL) :
    fetchTokenMarketData cache now mint jup pairs = ⟨some d, cache, false⟩ := by
  unfold fetchTokenMarketData
  rw [hc]
  dsimp only
  rw [if_pos hf]

theorem fetchToken_expired (cache : TtlCache TokenMarketData) (now : ℕ) (mint : String)
    (jup : Option JupInfo) (pairs : List DexPair) (d : TokenMarketData) (ts : ℕ)
    (hc : cacheGet cache mint = some (d, ts)) (hold : CACHE_TTL ≤ now - ts) :
    fetchTokenMarketData cache now mint jup pairs = fetchTokenFresh cache now mint jup pairs := by
  unfold fetchTokenMarketData
  rw [hc]
  dsimp only
  rw [if_neg (by omega)]

theorem fetchToken_stores (cache : TtlCache TokenMarketData) (now : ℕ) (mint : String)
    (jup : Option JupInfo) (pairs : List DexPair) (d : TokenMarketData)
    (h1 : (fetchTokenMarketData cache now mint jup pairs).networkUsed = true)
    (h2 : (fetchTokenMarketData cache now mint jup pairs).result = some d) :
    (fetchTokenMarketData cache now mint jup pairs).cache = cacheSet cache mint d now := by
  rw [fetchToken_eq_fresh_of_network cache now mint jup pairs h1] at h2 ⊢
  unfold fetchTokenFresh at h2 ⊢
  cases hm : mergeMarketData jup pairs with
  | none => rw [hm] at h2; simp at h2
  | some d2 =>
      rw [hm] at h2
      dsimp only at h2 ⊢
      simp at h2
      rw [h2]

theorem fetchRugFresh_networkUsed (cache : TtlCache RugCheckData) (now : ℕ) (mint : String)
    (resp : RugResponse) : (fetchRugFresh cache now mint resp).networkUsed = true := by
  unfold fetchRugFresh
  cases resp <;> rfl

theorem fetchRug_eq_fresh_of_network (cache : TtlCache RugCheckData) (now : ℕ)
    (mint : String) (resp : RugResponse)
    (h : (fetchRugCheckData cache now mint resp).networkUsed = true) :
    fetchRugCheckData cache now mint resp = fetchRugFresh cache now mint resp := by
  unfold fetchRugCheckData at h ⊢
  cases hc : cacheGet cache mint with
  | none => rfl
  | some e =>
      obtain ⟨d0, ts⟩ := e
      rw [hc] at h
      dsimp only at h ⊢
      by_cases hf : now - ts < CACHE_TTL
      · rw [if_pos hf] at h
        simp at h
      · rw [if_neg hf]

theorem fetchRug_hit (cache : TtlCache RugCheckData) (now : ℕ) (mint : String)
    (resp : RugResponse) (d : RugCheckData) (ts : ℕ)
    (hc : cacheGet cache mint = some (d, ts)) (hf : now - ts < CACHE_TTL) :
    fetchRugCheckData cache now mint resp = ⟨d, cache, false⟩ := by
  unfold fetchRugCheckData
  rw [hc]
  dsimp only
  rw [if_pos hf]

theorem fetchRug_expired (cache : TtlCache RugCheckData) (now : ℕ) (mint : String)
    (resp : RugResponse) (d : RugCheckData) (ts : ℕ)
    (hc : cacheGet cache mint = some (d, ts)) (hold : CACHE_TTL ≤ now - ts) :
    fetchRugCheckData cache now mint resp = fetchRugFresh cache now mint resp := by
  unfold fetchRugCheckData
  rw [hc]
  dsimp only
  rw [if_neg (by omega)]

/-- C7: every successful resolution stores its result with the current
timestamp; a lookup within the TTL window of a stored entry returns the
stored data with no network call; an entry at least TTL old is never
served (the call behaves exactly like a cache miss); and the risk-score
cache follows the same discipline. -/
theorem ttl_cache_discipline :
    (∀ cache now mint jup pairs d,
        (fetchTokenMarketData cache now mint jup pairs).networkUsed = true →
        (fetchTokenMarketData cache now mint jup pairs).result = some d →
        cacheGet (fetchTokenMarketData cache now mint jup pairs).cache mint = some (d, now))
    ∧ (∀ cache t mint jup pairs d,
        (fetchTokenMarketData cache t mint jup pairs).networkUsed = true →
        (fetchTokenMarketData cache t mint jup pairs).result = some d →
        ∀ t2 jup2 pairs2, t2 - t < CACHE_TTL →
          fetchTokenMarketData (fetchTokenMarketData cache t mint jup pairs).cache t2 mint jup2 pairs2
            = ⟨some d, (fetchTokenMarketData cache t mint jup pairs).cache, false⟩)
    ∧ (∀ cache now mint jup pairs d ts, cacheGet cache mint = some (d, ts) →
        CACHE_TTL ≤ now - ts →
        fetchTokenMarketData cache now mint jup pairs = fetchTokenFresh cache now mint jup pairs
        ∧ (fetchTokenMarketData cache now mint jup pairs).networkUsed = true)
    ∧ (∀ cache now mint score,
        (fetchRugCheckData cache now mint (.report score)).networkUsed = true →
        cacheGet (fetchRugCheckData cache now mint (.report score)).cache mint
          = some ((fetchRugCheckData cache now mint (.report score)).result, now))
    ∧ (∀ cache t mint resp d ts, cacheGet cache mint = some (d, ts) → t - ts < CACHE_TTL →
        fetchRugCheckData cache t mint resp = ⟨d, cache, false⟩)
    ∧ (∀ cache now mint resp d ts, cacheGet cache mint = some (d, ts) →
        CACHE_TTL ≤ now - ts →
        fetchRugCheckData cache now mint resp = fetchRugFresh cache now mint resp
        ∧ (fetchRugCheckData cache now mint resp).networkUsed = true) := by
  have hstore : ∀ cache now mint jup pairs d,
      (fetchTokenMarketData cache now mint jup pairs).networkUsed = true →
      (fetchTokenMarketData cache now mint jup pairs).result = some d →
      cacheGet (fetchTokenMarketData cache now mint jup pairs).cache mint = some (d, now) := by
    intro cache now mint jup pairs d h1 h2
    rw [fetchToken_stores cache now mint jup pairs d h1 h2]
    exact cacheGet_cacheSet_same cache mint d now
  refine ⟨hstore, ?_, ?_, ?_, ?_, ?_⟩
  · intro cache t mint jup pairs d h1 h2 t2 jup2 pairs2 hwin
    exact fetchToken_hit _ t2 mint jup2 pairs2 d t (hstore cache t mint jup pairs d h1 h2) hwin
  · intro cache now mint jup pairs d ts hc hold
    have heq := fetchToken_expired cache now mint jup pairs d ts hc hold
    exact ⟨heq, by rw [heq]; exact fetchTokenFresh_networkUsed cache now mint jup pairs⟩
  · intro cache now mint score h1
    rw [fetchRug_eq_fresh_of_network cache now mint _ h1]
    unfold fetchRugFresh
    exact cacheGet_cacheSet_same cache mint _ now
  · intro cache t mint resp d ts hc hwin
    exact fetchRug_hit cache t mint resp d ts hc hwin
  · intro cache now mint resp d ts hc hold
    have heq := fetchRug_expired cache now mint resp d ts hc hold
    exact ⟨heq, by rw [heq]; exact fetchRugFresh_networkUsed cache now mint resp⟩

theorem ttl_cache_discipline_witness :
    cacheGet (fetchTokenMarketData [] 0 "M" (some ⟨some "1", some ⟨some "S"⟩⟩) []).cache "M"
      = some (⟨"S", "S", "1", 0, 0⟩, 0)
    ∧ fetchTokenMarketData (fetchTokenMarketData [] 0 "M" (some ⟨some "1", some ⟨some "S"⟩⟩) []).cache
        100 "M" none [] =
        ⟨some ⟨"S", "S", "1", 0, 0⟩,
         (fetchTokenMarketData [] 0 "M" (some ⟨some "1", some ⟨some "S"⟩⟩) []).cache, false⟩ := by
  have h1 : (fetchTokenMarketData [] 0 "M" (some ⟨some "1", some ⟨some "S"⟩⟩) []).networkUsed
      = true := rfl
  have h2 : (fetchTokenMarketData [] 0 "M" (some ⟨some "1", some ⟨some "S"⟩⟩) []).result
      = some ⟨"S", "S", "1", 0, 0⟩ := rfl
  refine ⟨ttl_cache_discipline.1 [] 0 "M" _ [] _ h1 h2, ?_⟩
  exact ttl_cache_discipline.2.1 [] 0 "M" _ [] _ h1 h2 100 none [] (by decide)

/-! #### C3: retry loop budget and rate-limit delay -/

theorem retryLoop_fetches_le : ∀ (trace : List FetchOutcome) (a : ℕ),
    (retryLoop a trace).fetches ≤ MAX_ATTEMPTS - a := by
  intro trace
  induction trace with
  | nil =>
      intro a
      rw [retryLoop.eq_def]
      split
      · exact Nat.zero_le _
      · exact Nat.zero_le _
  | cons o rest ih =>
      intro a
      rw [retryLoop.eq_def]
      split
      · exact Nat.zero_le _
      · rename_i hlt
        push_neg at hlt
        have hM : MAX_ATTEMPTS = 15 := rfl
        have hr := ih (a + 1)
        rw [hM] at hlt hr ⊢
        cases o with
        | sigs ne err =>
            cases ne with
            | false =>
                cases err with
                | false => show (retryLoop (a+1) rest).fetches + 1 ≤ 15 - a; omega
                | true => show (retryLoop (a+1) rest).fetches + 1 ≤ 15 - a; omega
            | true =>
                cases err with
                | false => show (1 : ℕ) ≤ 15 - a; omega
                | true => show (retryLoop (a+1) rest).fetches + 1 ≤ 15 - a; omega
        | rateLimited => show (retryLoop (a+1) rest).fetches + 1 ≤ 15 - a; omega
        | failed => show (retryLoop (a+1) rest).fetches + 1 ≤ 15 - a; omega

/-- C3 (counterexample): feeding the retry loop nothing but rate-limit
failures exhausts the 15-attempt budget (each 429 iteration executes
`attempts++`, line 300), although none of these outcomes returns zero
signatures or an error-marked newest signature — so rate-limited attempts
do consume the attempt budget, contrary to the claim. -/
theorem retry_rateLimit_consumes_budget :
    (retryLoop 0 (List.replicate 16 FetchOutcome.rateLimited)).fetches = 15
    ∧ (retryLoop 0 (List.replicate 16 FetchOutcome.rateLimited)).succeeded = false
    ∧ (List.replicate 16 FetchOutcome.rateLimited).countP countsAgainstLagBudget = 0 := by
  refine ⟨by decide, by decide, by decide⟩

/-- C3 (amended): a rate-limited attempt sleeps 1200 ms before the next
attempt — strictly longer than the 200 ms of a no-data attempt — but every
non-breaking attempt, rate-limited ones included, consumes one unit of the
15-attempt budget, and the loop never makes more than 15 fetches. -/
theorem retry_rateLimit_waits_longer (a : ℕ) (rest : List FetchOutcome)
    (h : a < MAX_ATTEMPTS) :
    (retryLoop a (FetchOutcome.rateLimited :: rest)).sleeps.head? = some 1200
    ∧ (retryLoop a (FetchOutcome.sigs false false :: rest)).sleeps.head? = some 200
    ∧ (200 : ℕ) < 1200
    ∧ (retryLoop a (FetchOutcome.rateLimited :: rest)).fetches
        = (retryLoop (a + 1) rest).fetches + 1
    ∧ ∀ trace : List FetchOutcome, (retryLoop a trace).fetches ≤ MAX_ATTEMPTS - a := by
  have hna : ¬ a ≥ MAX_ATTEMPTS := by omega
  refine ⟨?_, ?_, by omega, ?_, fun trace => retryLoop_fetches_le trace a⟩
  · rw [retryLoop.eq_def, if_neg hna]
    rfl
  · rw [retryLoop.eq_def, if_neg hna]
    rfl
  · rw [retryLoop.eq_def, if_neg hna]

theorem retry_rateLimit_waits_longer_witness :
    (0 < MAX_ATTEMPTS)
    ∧ (retryLoop 0 [FetchOutcome.rateLimited]).sleeps.head? = some 1200
    ∧ (retryLoop 0 [FetchOutcome.sigs false false]).sleeps.head? = some 200
    ∧ (retryLoop 0 (List.replicate 20 FetchOutcome.failed)).fetches ≤ MAX_ATTEMPTS - 0 := by
  have h := retry_rateLimit_waits_longer 0 [] (by decide)
  exact ⟨by decide, h.1, h.2.1, h.2.2.2.2 _⟩

/-! #### C9: bounded-concurrency dispatch -/

theorem chunkArray_spec {α : Type} (l : List α) (size : ℕ) (hs : 0 < size) :
    (∀ c ∈ chunkArray l size, c.length ≤ size) ∧ (chunkArray l size).flatten = l := by
  match l, size with
  | [], size => simp [chunkArray]
  | a :: as, size + 1 =>
      rw [chunkArray]
      have ih := chunkArray_spec ((a :: as).drop (size + 1)) (size + 1) hs
      constructor
      · intro c hc
        rcases List.mem_cons.mp hc with rfl | hmem
        · exact List.length_take_le _ _
        · exact ih.1 c hmem
      · rw [List.flatten_cons, ih.2]
        exact List.take_append_drop (size + 1) (a :: as)
termination_by l.length
decreasing_by
  simp only [List.length_drop, List.length_cons]
  omega

/-- C9: the updates of one cycle are partitioned into dispatch waves of at
most `MAX_CONCURRENT_TASKS` tasks each (line 509), and since each wave is
awaited as a whole before the next starts, the in-flight task count at any
moment is one wave's size, hence never exceeds the permit count. -/
theorem concurrency_bound (updates : List ChangeRecord) :
    (∀ n ∈ inflightCounts updates, n ≤ MAX_CONCURRENT_TASKS)
    ∧ (chunkArray updates MAX_CONCURRENT_TASKS).flatten = updates := by
  have h := chunkArray_spec updates MAX_CONCURRENT_TASKS (by norm_num [MAX_CONCURRENT_TASKS])
  refine ⟨?_, h.2⟩
  intro n hn
  unfold inflightCounts at hn
  rcases List.mem_map.mp hn with ⟨c, hc, rfl⟩
  exact h.1 c hc

theorem concurrency_bound_witness :
    (∀ n ∈ inflightCounts (List.replicate 7 ⟨"a", 0, 0⟩), n ≤ MAX_CONCURRENT_TASKS)
    ∧ (chunkArray (List.replicate 7 (⟨"a", 0, 0⟩ : ChangeRecord)) MAX_CONCURRENT_TASKS).flatten
        = List.replicate 7 ⟨"a", 0, 0⟩ :=
  concurrency_bound (List.replicate 7 ⟨"a", 0, 0⟩)

/-! #### C2, C8, C10: balance change detection and batch isolation -/

theorem setBal_ne (c : BalCache) (a k : String) (v : ℕ) (h : k ≠ a) : setBal c a v k = c k := by
  simp [setBal, h]

theorem processBatch_untouched (batch : List (String × Option ℕ)) :
    ∀ (cache : BalCache) (addr : String), addr ∉ batch.map Prod.fst →
    ((processBatch cache batch).1 addr = cache addr)
    ∧ (∀ r ∈ (processBatch cache batch).2, r.address ≠ addr) := by
  induction batch with
  | nil => intro cache addr _; exact ⟨rfl, by simp [processBatch]⟩
  | cons p rest ih =>
      intro cache addr hmem
      obtain ⟨a, info⟩ := p
      simp only [List.map_cons, List.mem_cons, not_or] at hmem
      have hne : addr ≠ a := hmem.1
      have hrest := hmem.2
      simp only [processBatch]
      by_cases hco : info.getD 0 ≠ (cache a).getD 0
      · rw [if_pos hco]
        by_cases hth : mabs (lamportsToSol ((info.getD 0 : ℚ) - ((cache a).getD 0 : ℚ)))
            > 0.000000001
        · rw [if_pos hth]
          have ihr := ih (setBal cache a (info.getD 0)) addr hrest
          refine ⟨?_, ?_⟩
          · show (processBatch (setBal cache a (info.getD 0)) rest).1 addr = cache addr
            rw [ihr.1, setBal_ne _ _ _ _ hne]
          · intro r hr
            rcases List.mem_cons.mp hr with rfl | hr2
            · exact Ne.symm hne
            · exact ihr.2 r hr2
        · rw [if_neg hth]
          have ihr := ih (setBal cache a (info.getD 0)) addr hrest
          exact ⟨by rw [ihr.1, setBal_ne _ _ _ _ hne], ihr.2⟩
      · rw [if_neg hco]
        exact ih cache addr hrest

theorem processBatch_spec (batch : List (String × Option ℕ)) :
    ∀ (cache : BalCache) (addr : String) (info : Option ℕ),
    (batch.map Prod.fst).Nodup → (addr, info) ∈ batch →
    (((processBatch cache batch).1 addr).getD 0 = info.getD 0)
    ∧ ((∃ r ∈ (processBatch cache batch).2, r.address = addr) ↔
        mabs (lamportsToSol ((info.getD 0 : ℚ) - ((cache addr).getD 0 : ℚ))) > 0.000000001)
    ∧ (∀ r ∈ (processBatch cache batch).2, r.address = addr →
        r.cur = info.getD 0
        ∧ r.diffSol = lamportsToSol ((info.getD 0 : ℚ) - ((cache addr).getD 0 : ℚ))) := by
  induction batch with
  | nil => intro cache addr info _ hmem; simp at hmem
  | cons p rest ih =>
      intro cache addr info hnd hmem
      obtain ⟨a, i⟩ := p
      simp only [List.map_cons, List.nodup_cons] at hnd
      rcases List.mem_cons.mp hmem with heq | hmem2
      · obtain ⟨rfl, rfl⟩ : addr = a ∧ info = i := by
          simpa [Prod.ext_iff] using heq
        have hnotin : addr ∉ rest.map Prod.fst := hnd.1
        simp only [processBatch]
        by_cases hco : info.getD 0 ≠ (cache addr).getD 0
        · rw [if_pos hco]
          by_cases hth : mabs (lamportsToSol ((info.getD 0 : ℚ) - ((cache addr).getD 0 : ℚ)))
              > 0.000000001
          · rw [if_pos hth]
            have hu := processBatch_untouched rest (setBal cache addr (info.getD 0)) addr hnotin
            refine ⟨?_, ?_, ?_⟩
            · show ((processBatch (setBal cache addr (info.getD 0)) rest).1 addr).getD 0
                = info.getD 0
              rw [hu.1]
              simp [setBal]
            · constructor
              · intro _; exact hth
              · intro _
                exact ⟨⟨addr, info.getD 0,
                  lamportsToSol ((info.getD 0 : ℚ) - ((cache addr).getD 0 : ℚ))⟩,
                  by simp, rfl⟩
            · intro r hr hra
              rcases List.mem_cons.mp hr with rfl | hr2
              · exact ⟨rfl, rfl⟩
              · exact absurd hra (hu.2 r hr2)
          · rw [if_neg hth]
            have hu := processBatch_untouched rest (setBal cache addr (info.getD 0)) addr hnotin
            refine ⟨?_, ?_, ?_⟩
            · rw [hu.1]
              simp [setBal]
            · constructor
              · rintro ⟨r, hr, hra⟩; exact absurd hra (hu.2 r hr)
              · intro hcontra; exact absurd hcontra hth
            · intro r hr hra; exact absurd hra (hu.2 r hr)
        · rw [if_neg hco]
          push_neg at hco
          have hu := processBatch_untouched rest cache addr hnotin
          refine ⟨?_, ?_, ?_⟩
          · rw [hu.1]
            exact hco.symm
          · constructor
            · rintro ⟨r, hr, hra⟩; exact absurd hra (hu.2 r hr)
            · intro hcontra
              rw [hco] at hcontra
              norm_num [lamportsToSol, mabs] at hcontra
          · intro r hr hra; exact absurd hra (hu.2 r hr)
      · have hin : addr ∈ rest.map Prod.fst := List.mem_map.mpr ⟨(addr, info), hmem2, rfl⟩
        have hane : a ≠ addr := fun hc => hnd.1 (hc ▸ hin)
        have hset : (setBal cache a (i.getD 0)) addr = cache addr :=
          setBal_ne cache a addr _ (Ne.symm hane)
        simp only [processBatch]
        by_cases hco : i.getD 0 ≠ (cache a).getD 0
        · rw [if_pos hco]
          by_cases hth : mabs (lamportsToSol ((i.getD 0 : ℚ) - ((cache a).getD 0 : ℚ)))
              > 0.000000001
          · rw [if_pos hth]
            have ihr := ih (setBal cache a (i.getD 0)) addr info hnd.2 hmem2
            rw [hset] at ihr
            refine ⟨ihr.1, ?_, ?_⟩
            · rw [← ihr.2.1]
              constructor
              · rintro ⟨r, hr, hra⟩
                rcases List.mem_cons.mp hr with rfl | hr2
                · exact absurd hra hane
                · exact ⟨r, hr2, hra⟩
              · rintro ⟨r, hr, hra⟩
                exact ⟨r, List.mem_cons_of_mem _ hr, hra⟩
            · intro r hr hra
              rcases List.mem_cons.mp hr with rfl | hr2
              · exact absurd hra hane
              · exact ihr.2.2 r hr2 hra
          · rw [if_neg hth]
            have ihr := ih (setBal cache a (i.getD 0)) addr info hnd.2 hmem2
            rw [hset] at ihr
            exact ihr
        · rw [if_neg hco]
          exact ih cache addr info hnd.2 hmem2

theorem initChunk_untouched (batch : List (String × Option ℕ)) :
    ∀ (cache : BalCache) (addr : String), addr ∉ batch.map Prod.fst →
    initChunk cache batch addr = cache addr := by
  induction batch with
  | nil => intro cache addr _; rfl
  | cons p rest ih =>
      intro cache addr hmem
      obtain ⟨a, info⟩ := p
      simp only [List.map_cons, List.mem_cons, not_or] at hmem
      show initChunk (setBal cache a (info.getD 0)) rest addr = cache addr
      rw [ih _ addr hmem.2, setBal_ne _ _ _ _ hmem.1]

theorem initChunk_spec (batch : List (String × Option ℕ)) :
    ∀ (cache : BalCache) (addr : String) (info : Option ℕ),
    (batch.map Prod.fst).Nodup → (addr, info) ∈ batch →
    initChunk cache batch addr = some (info.getD 0) := by
  induction batch with
  | nil => intro _ _ _ _ hmem; simp at hmem
  | cons p rest ih =>
      intro cache addr info hnd hmem
      obtain ⟨a, i⟩ := p
      simp only [List.map_cons, List.nodup_cons] at hnd
      rcases List.mem_cons.mp hmem with heq | hmem2
      · obtain ⟨rfl, rfl⟩ : addr = a ∧ info = i := by
          simpa [Prod.ext_iff] using heq
        show initChunk (setBal cache addr (info.getD 0)) rest addr = some (info.getD 0)
        rw [initChunk_untouched rest _ addr hnd.1]
        simp [setBal]
      · exact ih _ addr info hnd.2 hmem2

/-- C2: within one successfully queried batch (with pairwise-distinct
addresses), a ChangeRecord is produced for an account iff the absolute
SOL difference between its queried balance and its cached balance is
strictly greater than the 0.000000001 noise threshold; the record carries
the new balance and the signed delta; and afterwards the cache reads back
the newly queried value for every account of the batch, including those
whose change was at or below the threshold. -/
theorem balance_change_iff (cache : BalCache) (batch : List (String × Option ℕ))
    (addr : String) (info : Option ℕ)
    (hnd : (batch.map Prod.fst).Nodup) (hmem : (addr, info) ∈ batch) :
    (((processBatch cache batch).1 addr).getD 0 = info.getD 0)
    ∧ ((∃ r ∈ (processBatch cache batch).2, r.address = addr) ↔
        mabs (lamportsToSol ((info.getD 0 : ℚ) - ((cache addr).getD 0 : ℚ))) > 0.000000001)
    ∧ (∀ r ∈ (processBatch cache batch).2, r.address = addr →
        r.cur = info.getD 0
        ∧ r.diffSol = lamportsToSol ((info.getD 0 : ℚ) - ((cache addr).getD 0 : ℚ))) :=
  processBatch_spec batch cache addr info hnd hmem

theorem balance_change_iff_witness :
    (((processBatch (fun k => if k = "w1" then some 5000000000 else none)
        [("w1", some 7000000000)]).1 "w1").getD 0 = 7000000000)
    ∧ (∃ r ∈ (processBatch (fun k => if k = "w1" then some 5000000000 else none)
        [("w1", some 7000000000)]).2, r.address = "w1") := by
  have h := balance_change_iff (fun k => if k = "w1" then some 5000000000 else none)
    [("w1", some 7000000000)] "w1" (some 7000000000) (by simp) (by simp)
  refine ⟨by simpa using h.1, h.2.1.mpr ?_⟩
  simp only [Option.getD_some]
  norm_num [lamportsToSol, mabs]

theorem runCycle_append (xs ys : List (List String × Option (List (Option ℕ)))) :
    ∀ cache : BalCache,
    runCycle cache (xs ++ ys)
      = ((runCycle (runCycle cache xs).1 ys).1,
         (runCycle cache xs).2 ++ (runCycle (runCycle cache xs).1 ys).2) := by
  induction xs with
  | nil => intro cache; rfl
  | cons x rest ih =>
      intro cache
      obtain ⟨chunk, res⟩ := x
      cases res with
      | none =>
          show ((runCycle cache (rest ++ ys)).1, [] :: (runCycle cache (rest ++ ys)).2) = _
          rw [ih cache]
          rfl
      | some infos =>
          show ((runCycle (processBatch cache (chunk.zip infos)).1 (rest ++ ys)).1,
                (processBatch cache (chunk.zip infos)).2 ::
                  (runCycle (processBatch cache (chunk.zip infos)).1 (rest ++ ys)).2) = _
          rw [ih (processBatch cache (chunk.zip infos)).1]
          rfl

/-- C8: a batch whose balance query failed contributes no ChangeRecords and
leaves every cache entry exactly as it was: the cycle's final cache equals
that of the same cycle without the failed batch (so both the failed
batch's accounts and all other batches are unaffected, and the next cycle
diffs against the unchanged stale values), and the failed batch's record
list is empty. -/
theorem failed_batch_isolated (cache : BalCache) (chunk : List String)
    (pre post : List (List String × Option (List (Option ℕ)))) :
    ((runCycle cache (pre ++ (chunk, none) :: post)).1 = (runCycle cache (pre ++ post)).1)
    ∧ ((runCycle cache (pre ++ (chunk, none) :: post)).2
        = (runCycle cache pre).2 ++ [] :: (runCycle (runCycle cache pre).1 post).2) := by
  have h1 := runCycle_append pre ((chunk, none) :: post) cache
  have h2 := runCycle_append pre post cache
  constructor
  · rw [h1, h2]
    rfl
  · rw [h1]
    rfl

/-- C10: an account whose batched lookup returns no account info is
recorded with balance exactly 0, both when the initial snapshot is
established and in every polling cycle; hence a disappearing account with
cached balance `b` above threshold yields a record with delta `-b` SOL,
and a newly appearing account with balance `b` above threshold yields a
record with delta `+b` SOL. -/
theorem missing_account_as_zero (cache : BalCache) (batch : List (String × Option ℕ))
    (addr : String) (hnd : (batch.map Prod.fst).Nodup) :
    ((addr, (none : Option ℕ)) ∈ batch → initChunk cache batch addr = some 0)
    ∧ ((addr, (none : Option ℕ)) ∈ batch →
        (((processBatch cache batch).1 addr).getD 0 = 0))
    ∧ (∀ b : ℕ, (addr, (none : Option ℕ)) ∈ batch → cache addr = some b →
        mabs (lamportsToSol (0 - (b : ℚ))) > 0.000000001 →
        ∃ r ∈ (processBatch cache batch).2,
          r.address = addr ∧ r.cur = 0 ∧ r.diffSol = lamportsToSol (0 - (b : ℚ)))
    ∧ (∀ b : ℕ, (addr, some b) ∈ batch → cache addr = none →
        mabs (lamportsToSol (b : ℚ)) > 0.000000001 →
        ∃ r ∈ (processBatch cache batch).2,
          r.address = addr ∧ r.cur = b ∧ r.diffSol = lamportsToSol (b : ℚ)) := by
  refine ⟨?_, ?_, ?_, ?_⟩
  · intro hmem
    simpa using initChunk_spec batch cache addr none hnd hmem
  · intro hmem
    simpa using (processBatch_spec batch cache addr none hnd hmem).1
  · intro b hmem hc hth
    have h := processBatch_spec batch cache addr none hnd hmem
    rw [hc] at h
    simp only [Option.getD_none, Option.getD_some, Nat.cast_zero] at h
    obtain ⟨r, hr, hra⟩ := h.2.1.mpr hth
    have hfields := h.2.2 r hr hra
    exact ⟨r, hr, hra, hfields.1, hfields.2⟩
  · intro b hmem hc hth
    have h := processBatch_spec batch cache addr (some b) hnd hmem
    rw [hc] at h
    simp only [Option.getD_none, Option.getD_some, Nat.cast_zero, sub_zero] at h
    obtain ⟨r, hr, hra⟩ := h.2.1.mpr hth
    have hfields := h.2.2 r hr hra
    exact ⟨r, hr, hra, hfields.1, hfields.2⟩

theorem missing_account_as_zero_witness :
    initChunk (fun _ => none) [("w1", none)] "w1" = some 0
    ∧ (∃ r ∈ (processBatch (fun k => if k = "w1" then some 5000000000 else none)
        [("w1", none)]).2, r.address = "w1" ∧ r.cur = 0
          ∧ r.diffSol = lamportsToSol (0 - (5000000000 : ℚ)))
    ∧ (∃ r ∈ (processBatch (fun _ => none) [("w2", some 3000000000)]).2,
        r.address = "w2" ∧ r.cur = 3000000000
          ∧ r.diffSol = lamportsToSol ((3000000000 : ℚ))) := by
  refine ⟨?_, ?_, ?_⟩
  · exact (missing_account_as_zero (fun _ => none) [("w1", none)] "w1" (by simp)).1 (by simp)
  · have h := (missing_account_as_zero (fun k => if k = "w1" then some 5000000000 else none)
      [("w1", none)] "w1" (by simp)).2.2.1 5000000000 (by simp) (by simp)
      (by norm_num [lamportsToSol, mabs])
    obtain ⟨r, hr, h1, h2, h3⟩ := h
    exact ⟨r, hr, h1, h2, by simpa using h3⟩
  · have h := (missing_account_as_zero (fun _ => none) [("w2", some 3000000000)] "w2"
      (by simp)).2.2.2 3000000000 (by simp) rfl (by norm_num [lamportsToSol, mabs])
    obtain ⟨r, hr, h1, h2, h3⟩ := h
    exact ⟨r, hr, h1, h2, by simpa using h3⟩

end SolMonitor
